import Mathlib

/-!
Shallow embedding of the emotionmap page script (src/script.js).

Numeric values (expression intensities, frequencies, amplitudes, color
components) are modelled over `ℚ`, standing for the exact real arithmetic
the spec states.  Emotion snapshots are association lists from label
strings to intensities, mirroring the plain objects built per sampling
tick.  Side effects (pushing to `emotionHistory`, starting an oscillator,
resizing the canvas) are modelled by returning the updated history, an
optional `Cue` record, and the computed width.
-/

namespace EmotionMap

/-- The fixed label list `EMOTIONS` (script.js lines 6-14), in source order. -/
def EMOTIONS : List String :=
  ["neutral", "happy", "sad", "angry", "fearful", "disgusted", "surprised"]

/-- The per-label base-frequency table `EMOTION_FREQS` (script.js lines 34-42). -/
def EMOTION_FREQS : List (String × ℚ) :=
  [("neutral", 220), ("happy", 880), ("sad", 260), ("angry", 440),
   ("fearful", 600), ("disgusted", 320), ("surprised", 700)]

/-- JavaScript property access `obj[name]` on an object literal modelled as
an association list: `some` the stored value, `none` (undefined) when the
key is absent. -/
def objGet : List (String × ℚ) → String → Option ℚ
  | [], _ => none
  | (k, v) :: t, name => if k = name then some v else objGet t name

/-- JavaScript numeric `e || fallback`: an absent key (`undefined`) and the
number `0` are both falsy and yield the fallback; any other number is kept. -/
def jsOrNum (v : Option ℚ) (fallback : ℚ) : ℚ :=
  match v with
  | some x => if x = 0 then fallback else x
  | none => fallback

/-- `EMOTION_FREQS[name] || 440` (script.js line 67). -/
def baseFreqOf (name : String) : ℚ :=
  jsOrNum (objGet EMOTION_FREQS name) 440

/-- The observable parameters of one beep: the oscillator's frequency and
peak amplitude from `triggerBeepForEmotion` (script.js lines 64-83). -/
structure Cue where
  name : String
  freq : ℚ
  amp : ℚ
deriving DecidableEq

/-- `triggerBeepForEmotion(name, intensity)` (script.js lines 64-83):
drops the cue when audio is not initialized, otherwise produces a beep at
`baseFreq * (0.8 + intensity * 0.4)` with peak amplitude
`0.05 + intensity * 0.25`. -/
def triggerBeepForEmotion (audioInitialized : Bool) (name : String)
    (intensity : ℚ) : Option Cue :=
  if !audioInitialized then none
  else
    some { name := name
           freq := baseFreqOf name * (0.8 + intensity * 0.4)
           amp := 0.05 + intensity * 0.25 }

/-- A Sample: the per-tick snapshot object, an association of labels to
intensities (script.js line 117). -/
abbrev Sample := List (String × ℚ)

/-- `snapshot[name] || 0` (script.js line 147): reading a label from a
snapshot object, with absent keys falling back to `0`. -/
def sampleVal (snap : Sample) (name : String) : ℚ :=
  jsOrNum (objGet snap name) 0

/-- One iteration of the dominant-emotion loop body (script.js lines
146-152): update `(bestName, bestVal)` when the current value is strictly
greater. -/
def bestStep (s : String → ℚ) (acc : Option String × ℚ) (name : String) :
    Option String × ℚ :=
  if acc.2 < s name then (some name, s name) else acc

/-- The dominant-emotion selection (script.js lines 144-152): fold the
loop body over `EMOTIONS` starting from `bestName = null`, `bestVal = 0`. -/
def dominantOf (snap : Sample) : Option String × ℚ :=
  EMOTIONS.foldl (bestStep (sampleVal snap)) (none, 0)

/-- The cue-emission step of the sampling callback (script.js lines
143-156): beep for the dominant emotion only when a name was selected and
`bestVal > 0.2`. -/
def emitCue (audioInitialized : Bool) (snap : Sample) : Option Cue :=
  match dominantOf snap with
  | (some bestName, bestVal) =>
      if 0.2 < bestVal then triggerBeepForEmotion audioInitialized bestName bestVal
      else none
  | (none, _) => none

/-- The outcome of one expression read (script.js lines 120-139): a
detection with an expressions map, a missing face / missing expressions,
or a thrown exception. -/
inductive DetResult where
  | success (expressions : String → Option ℚ)
  | noFace
  | failure

/-- Building the per-tick snapshot (script.js lines 117-139): on success
read each of the 7 labels with `|| 0`; on no face or on an exception set
every label to `0`. -/
def buildSnapshot : DetResult → Sample
  | .success expressions => EMOTIONS.map fun name => (name, jsOrNum (expressions name) 0)
  | .noFace => EMOTIONS.map fun name => (name, 0)
  | .failure => EMOTIONS.map fun name => (name, 0)

/-- `COL_WIDTH` (script.js line 24). -/
def COL_WIDTH : ℕ := 6

/-- The required canvas width for a history of `n` samples:
`Math.max(window.innerWidth, emotionHistory.length * COL_WIDTH)`
(script.js line 159 and line 259). -/
def neededWidth (viewportWidth n : ℕ) : ℕ :=
  max viewportWidth (n * COL_WIDTH)

/-- One sampling-interval callback (script.js lines 116-163): build the
snapshot, push it onto the history, and run the cue-emission step.  The
callback has no failure path; detection errors are absorbed by
`buildSnapshot`. -/
def sampleTick (audioInitialized : Bool) (det : DetResult)
    (hist : List Sample) : List Sample × Option Cue :=
  let snapshot := buildSnapshot det
  (hist ++ [snapshot], emitCue audioInitialized snapshot)

/-- Iterating the sampling callback over a sequence of detection
outcomes, collecting the history. -/
def runTicks (audioInitialized : Bool) (dets : List DetResult)
    (hist : List Sample) : List Sample :=
  dets.foldl (fun h det => (sampleTick audioInitialized det h).1) hist

/-- p5's `lerp(start, stop, amt) = start + (stop - start) * amt`. -/
def lerp (start stop amt : ℚ) : ℚ := start + (stop - start) * amt

/-- A color in the sketch's HSB color mode (script.js line 173). -/
structure HSBColor where
  hue : ℚ
  sat : ℚ
  bri : ℚ
deriving DecidableEq

/-- `getEmotionColor(name, value)` (script.js lines 178-216). -/
def getEmotionColor (name : String) (value : ℚ) : HSBColor :=
  let b := lerp 10 100 value
  if name = "neutral" then ⟨0, 0, lerp 30 80 value⟩
  else if name = "happy" then ⟨60, 100, b⟩
  else if name = "sad" then ⟨220, 80, b⟩
  else if name = "angry" then ⟨0, 100, b⟩
  else if name = "fearful" then ⟨280, 80, b⟩
  else if name = "disgusted" then ⟨130, 80, b⟩
  else if name = "surprised" then ⟨180, 80, b⟩
  else ⟨0, 0, b⟩

/-- The all-zero Sample substituted on detection failure. -/
def zeroSample : Sample := EMOTIONS.map fun name => (name, 0)

/-- The concrete Sample of claim C1: `happy = 0.9`, all other labels `0`. -/
def happySample : Sample :=
  EMOTIONS.map fun name => (name, if name = "happy" then (0.9 : ℚ) else 0)

/-- A concrete Sample with a two-way tie at the maximum:
`happy = sad = 0.5`, all other labels `0`. -/
def tieSample : Sample :=
  EMOTIONS.map fun name =>
    (name, if name = "happy" ∨ name = "sad" then (0.5 : ℚ) else 0)

/-! ### Generic lemmas about the dominant-emotion fold -/

/-- Running maximum of `s` over a label list, seeded with `v`. -/
def lmax (s : String → ℚ) (v : ℚ) (l : List String) : ℚ :=
  l.foldl (fun m n => max m (s n)) v

theorem lmax_nil (s : String → ℚ) (v : ℚ) : lmax s v [] = v := rfl

theorem lmax_cons (s : String → ℚ) (v : ℚ) (n : String) (t : List String) :
    lmax s v (n :: t) = lmax s (max v (s n)) t := rfl

theorem le_lmax (s : String → ℚ) (l : List String) :
    ∀ v : ℚ, v ≤ lmax s v l := by
  induction l with
  | nil => intro v; exact le_refl v
  | cons n t ih =>
      intro v
      calc v ≤ max v (s n) := le_max_left _ _
        _ ≤ lmax s (max v (s n)) t := ih _
        _ = lmax s v (n :: t) := (lmax_cons s v n t).symm

theorem lmax_mono_seed (s : String → ℚ) (l : List String) :
    ∀ v w : ℚ, v ≤ w → lmax s v l ≤ lmax s w l := by
  induction l with
  | nil => intro v w h; exact h
  | cons n t ih =>
      intro v w h
      rw [lmax_cons, lmax_cons]
      exact ih _ _ (max_le_max h (le_refl _))

theorem lt_lmax_iff (s : String → ℚ) (c : ℚ) (l : List String) :
    ∀ v : ℚ, c < lmax s v l ↔ c < v ∨ ∃ n ∈ l, c < s n := by
  induction l with
  | nil => intro v; simp [lmax_nil]
  | cons n t ih =>
      intro v
      rw [lmax_cons, ih]
      constructor
      · rintro (h | ⟨m, hm, hv⟩)
        · rcases lt_max_iff.mp h with h | h
          · exact Or.inl h
          · exact Or.inr ⟨n, List.mem_cons_self n t, h⟩
        · exact Or.inr ⟨m, List.mem_cons_of_mem n hm, hv⟩
      · rintro (h | ⟨m, hm, hv⟩)
        · exact Or.inl (lt_max_iff.mpr (Or.inl h))
        · rcases List.mem_cons.mp hm with rfl | hm
          · exact Or.inl (lt_max_iff.mpr (Or.inr hv))
          · exact Or.inr ⟨m, hm, hv⟩

theorem lmax_attained (s : String → ℚ) (l : List String) :
    ∀ v : ℚ, lmax s v l = v ∨ ∃ n ∈ l, lmax s v l = s n := by
  induction l with
  | nil => intro v; exact Or.inl rfl
  | cons n t ih =>
      intro v
      rw [lmax_cons]
      rcases ih (max v (s n)) with h | ⟨m, hm, hv⟩
      · rcases max_cases v (s n) with ⟨he, _⟩ | ⟨he, _⟩
        · exact Or.inl (h.trans he)
        · exact Or.inr ⟨n, List.mem_cons_self n t, h.trans he⟩
      · exact Or.inr ⟨m, List.mem_cons_of_mem n hm, hv⟩

theorem foldl_bestStep_snd (s : String → ℚ) (l : List String) :
    ∀ (b : Option String) (v : ℚ),
      (l.foldl (bestStep s) (b, v)).2 = lmax s v l := by
  induction l with
  | nil => intro b v; rfl
  | cons n t ih =>
      intro b v
      rw [List.foldl_cons, lmax_cons]
      by_cases h : v < s n
      · rw [show bestStep s (b, v) n = (some n, s n) from if_pos h, ih,
          max_eq_right (le_of_lt h)]
      · rw [show bestStep s (b, v) n = (b, v) from if_neg h, ih,
          max_eq_left (le_of_not_lt h)]

theorem foldl_bestStep_stay (s : String → ℚ) (l : List String) :
    ∀ (b : Option String) (v : ℚ), lmax s v l ≤ v →
      l.foldl (bestStep s) (b, v) = (b, v) := by
  induction l with
  | nil => intro b v _; rfl
  | cons n t ih =>
      intro b v h
      rw [lmax_cons] at h
      have hn : s n ≤ v := by
        have := (le_lmax s t (max v (s n))).trans h
        exact (max_le_iff.mp this).2
      have hstep : bestStep s (b, v) n = (b, v) := if_neg (not_lt.mpr hn)
      rw [List.foldl_cons, hstep]
      exact ih b v ((lmax_mono_seed s t v (max v (s n)) (le_max_left _ _)).trans h)

theorem foldl_bestStep_main (s : String → ℚ) (l : List String) :
    ∀ (b : Option String) (v : ℚ), v < lmax s v l →
      l.foldl (bestStep s) (b, v) =
        (l.find? (fun n => decide (lmax s v l ≤ s n)), lmax s v l) := by
  induction l with
  | nil => intro b v h; exact absurd h (lt_irrefl v)
  | cons n t ih =>
      intro b v hv
      rw [lmax_cons] at hv ⊢
      by_cases h : v < s n
      · have hmaxv : max v (s n) = s n := max_eq_right (le_of_lt h)
        rw [hmaxv] at hv ⊢
        have hstep : bestStep s (b, v) n = (some n, s n) := if_pos h
        rw [List.foldl_cons, hstep]
        by_cases h2 : s n < lmax s (s n) t
        · have hfind : List.find? (fun n' => decide (lmax s (s n) t ≤ s n')) (n :: t)
              = List.find? (fun n' => decide (lmax s (s n) t ≤ s n')) t := by
            rw [List.find?_cons]
            simp [not_le.mpr h2]
          rw [hfind]
          exact ih (some n) (s n) h2
        · have hM : lmax s (s n) t = s n :=
            le_antisymm (le_of_not_lt h2) (le_lmax s t (s n))
          have hfind : List.find? (fun n' => decide (lmax s (s n) t ≤ s n')) (n :: t)
              = some n := by
            rw [List.find?_cons]
            simp [hM]
          rw [hfind, hM]
          exact foldl_bestStep_stay s t (some n) (s n) (le_of_eq hM)
      · have hmaxv : max v (s n) = v := max_eq_left (le_of_not_lt h)
        rw [hmaxv] at hv ⊢
        have hstep : bestStep s (b, v) n = (b, v) := if_neg h
        have hfind : List.find? (fun n' => decide (lmax s v t ≤ s n')) (n :: t)
            = List.find? (fun n' => decide (lmax s v t ≤ s n')) t := by
          rw [List.find?_cons]
          have : ¬ lmax s v t ≤ s n := not_le.mpr (lt_of_le_of_lt (le_of_not_lt h) hv)
          simp [this]
        rw [List.foldl_cons, hstep, hfind]
        exact ih b v hv

/-- Characterization of the dominant-emotion selection when some label is
strictly positive: the result is the maximum intensity together with the
first label (in the fixed `EMOTIONS` order) attaining it. -/
theorem dominantOf_spec (snap : Sample)
    (h : 0 < lmax (sampleVal snap) 0 EMOTIONS) :
    dominantOf snap =
      (EMOTIONS.find? (fun n => decide (lmax (sampleVal snap) 0 EMOTIONS ≤ sampleVal snap n)),
       lmax (sampleVal snap) 0 EMOTIONS) :=
  foldl_bestStep_main (sampleVal snap) EMOTIONS none 0 h

theorem le_lmax_of_mem (s : String → ℚ) (l : List String) :
    ∀ v : ℚ, ∀ n ∈ l, s n ≤ lmax s v l := by
  induction l with
  | nil => intro v n hn; exact absurd hn (List.not_mem_nil n)
  | cons m t ih =>
      intro v n hn
      rw [lmax_cons]
      rcases List.mem_cons.mp hn with rfl | hn
      · exact le_trans (le_max_right v (s n)) (le_lmax s t _)
      · exact ih _ n hn

theorem lerp_mono (a b v w : ℚ) (hab : a ≤ b) (hvw : v ≤ w) :
    lerp a b v ≤ lerp a b w := by
  unfold lerp
  have hba : 0 ≤ b - a := by linarith
  nlinarith

theorem sampleVal_happySample_happy : sampleVal happySample "happy" = 0.9 := by
  simp [sampleVal, happySample, EMOTIONS, jsOrNum, objGet]
  norm_num

theorem dominantOf_happySample : dominantOf happySample = (some "happy", 0.9) := by
  have h1 : sampleVal happySample "neutral" = 0 := by
    simp [sampleVal, happySample, EMOTIONS, jsOrNum, objGet]
  have h3 : sampleVal happySample "sad" = 0 := by
    simp [sampleVal, happySample, EMOTIONS, jsOrNum, objGet]
  have h4 : sampleVal happySample "angry" = 0 := by
    simp [sampleVal, happySample, EMOTIONS, jsOrNum, objGet]
  have h5 : sampleVal happySample "fearful" = 0 := by
    simp [sampleVal, happySample, EMOTIONS, jsOrNum, objGet]
  have h6 : sampleVal happySample "disgusted" = 0 := by
    simp [sampleVal, happySample, EMOTIONS, jsOrNum, objGet]
  have h7 : sampleVal happySample "surprised" = 0 := by
    simp [sampleVal, happySample, EMOTIONS, jsOrNum, objGet]
  simp only [dominantOf, EMOTIONS, List.foldl_cons, List.foldl_nil, bestStep,
    h1, sampleVal_happySample_happy, h3, h4, h5, h6, h7]
  norm_num

/-- C1: on the Sample with `happy = 0.9` and all other labels `0`, the cue
emitter selects `happy` (at intensity `0.9`) and, with audio unlocked,
emits a cue with frequency `880 * (0.8 + 0.9 * 0.4) = 1020.8` Hz and
loudness `0.05 + 0.9 * 0.25 = 0.275`, using the base-frequency table entry
`happy = 880`. -/
theorem claim_C1 :
    dominantOf happySample = (some "happy", 0.9) ∧
    baseFreqOf "happy" = 880 ∧
    emitCue true happySample = some ⟨"happy", 1020.8, 0.275⟩ := by
  refine ⟨dominantOf_happySample, ?_, ?_⟩
  · simp [baseFreqOf, EMOTION_FREQS, jsOrNum, objGet]
  · unfold emitCue
    rw [dominantOf_happySample]
    have h : (0.2 : ℚ) < 0.9 := by norm_num
    simp only [h, if_pos]
    simp [triggerBeepForEmotion, baseFreqOf, EMOTION_FREQS, jsOrNum, objGet]
    constructor <;> norm_num

/-- C9: before the one-time audio unlock (`audioInitialized = false`),
`triggerBeepForEmotion` produces no cue for any label and intensity, and
the whole cue-emission step of the sampling callback produces no cue for
any Sample. -/
theorem claim_C9 (name : String) (intensity : ℚ) (snap : Sample) :
    triggerBeepForEmotion false name intensity = none ∧
    emitCue false snap = none := by
  constructor
  · rfl
  · unfold emitCue
    rcases hd : dominantOf snap with ⟨b, v⟩
    cases b with
    | none => rfl
    | some bestName =>
        show (if (0.2 : ℚ) < v then triggerBeepForEmotion false bestName v else none) = none
        split_ifs with h
        · rfl
        · rfl

theorem sampleVal_zeroSample (name : String) : sampleVal zeroSample name = 0 := by
  simp only [zeroSample, EMOTIONS, List.map, sampleVal, objGet]
  split_ifs <;> simp [jsOrNum]

/-- C5: on a sampling tick whose detection step fails (no face detected /
missing expressions, or a thrown exception), the callback appends the
Sample with all 7 labels equal to 0 and continues; `sampleTick` is total,
so no other error path exists. -/
theorem claim_C5 (audioInitialized : Bool) (hist : List Sample) :
    (sampleTick audioInitialized .noFace hist).1 = hist ++ [zeroSample] ∧
    (sampleTick audioInitialized .failure hist).1 = hist ++ [zeroSample] ∧
    (∀ name, sampleVal zeroSample name = 0) ∧
    zeroSample.map Prod.fst = EMOTIONS := by
  exact ⟨rfl, rfl, sampleVal_zeroSample, rfl⟩

/-- C6: the history is append-only — running any sequence of sampling
ticks appends exactly one Sample per tick, so the resulting history has
the old history as a prefix and its length is the old length plus the
number of completed ticks. -/
theorem claim_C6 (audioInitialized : Bool) (dets : List DetResult)
    (hist : List Sample) :
    (runTicks audioInitialized dets hist).length = hist.length + dets.length ∧
    hist <+: runTicks audioInitialized dets hist := by
  induction dets generalizing hist with
  | nil => exact ⟨rfl, List.prefix_refl hist⟩
  | cons d t ih =>
      have hstep : runTicks audioInitialized (d :: t) hist
          = runTicks audioInitialized t (hist ++ [buildSnapshot d]) := rfl
      rcases ih (hist ++ [buildSnapshot d]) with ⟨hlen, hpre⟩
      constructor
      · rw [hstep, hlen]
        simp [List.length_append]
        ring
      · rw [hstep]
        exact (List.prefix_append hist [buildSnapshot d]).trans hpre

/-- C7: the required canvas width `max(viewportWidth, n * COL_WIDTH)` is
monotone in the number of samples `n` for a fixed viewport width, and the
width computed after a sampling tick (one more history entry) is never
smaller than the width computed before it — the canvas only grows as the
history grows. -/
theorem claim_C7 (viewportWidth n m : ℕ) (h : n ≤ m)
    (audioInitialized : Bool) (det : DetResult) (hist : List Sample) :
    neededWidth viewportWidth n ≤ neededWidth viewportWidth m ∧
    neededWidth viewportWidth hist.length ≤
      neededWidth viewportWidth ((sampleTick audioInitialized det hist).1).length := by
  constructor
  · exact max_le_max (le_refl viewportWidth) (Nat.mul_le_mul_right COL_WIDTH h)
  · have hlen : ((sampleTick audioInitialized det hist).1).length = hist.length + 1 := by
      simp [sampleTick]
    rw [hlen]
    exact max_le_max (le_refl viewportWidth)
      (Nat.mul_le_mul_right COL_WIDTH (Nat.le_succ hist.length))

/-- Witness for C7 at `viewportWidth = 800`, `n = 1`, `m = 5`, a no-face
tick on the empty history. -/
theorem claim_C7_witness :
    neededWidth 800 1 ≤ neededWidth 800 5 ∧
    neededWidth 800 ([] : List Sample).length ≤
      neededWidth 800 ((sampleTick true .noFace []).1).length :=
  claim_C7 800 1 5 (by norm_num) true .noFace []

/-- C2: with audio unlocked, the sampling callback emits an audio cue for
a Sample if and only if some label's intensity strictly exceeds the fixed
threshold `0.2`; in particular a Sample whose maximum value is at most
`0.2` (e.g. `0.15`) produces no cue. -/
theorem claim_C2 (snap : Sample) :
    emitCue true snap ≠ none ↔
      ∃ name ∈ EMOTIONS, (0.2 : ℚ) < sampleVal snap name := by
  constructor
  · intro h
    by_contra hng
    push_neg at hng
    apply h
    have hM : lmax (sampleVal snap) 0 EMOTIONS ≤ 0.2 := by
      by_contra hM2
      push_neg at hM2
      rcases (lt_lmax_iff (sampleVal snap) 0.2 EMOTIONS 0).mp hM2 with h02 | ⟨n, hn, hv⟩
      · norm_num at h02
      · exact absurd hv (not_lt.mpr (hng n hn))
    have hv2 : (dominantOf snap).2 = lmax (sampleVal snap) 0 EMOTIONS :=
      foldl_bestStep_snd (sampleVal snap) EMOTIONS none 0
    unfold emitCue
    rcases hdom : dominantOf snap with ⟨b, v⟩
    rw [hdom] at hv2
    cases b with
    | none => rfl
    | some bestName =>
        show (if (0.2 : ℚ) < v then triggerBeepForEmotion true bestName v else none) = none
        rw [if_neg (not_lt.mpr (le_trans (le_of_eq hv2) hM))]
  · rintro ⟨name, hmem, hgt⟩
    have hM2 : (0.2 : ℚ) < lmax (sampleVal snap) 0 EMOTIONS :=
      (lt_lmax_iff (sampleVal snap) 0.2 EMOTIONS 0).mpr (Or.inr ⟨name, hmem, hgt⟩)
    have hMpos : (0 : ℚ) < lmax (sampleVal snap) 0 EMOTIONS :=
      lt_trans (by norm_num) hM2
    have hspec := dominantOf_spec snap hMpos
    rcases lmax_attained (sampleVal snap) EMOTIONS 0 with h0 | ⟨n, hn, hvn⟩
    · rw [h0] at hMpos
      exact absurd hMpos (lt_irrefl 0)
    · have hsome : (EMOTIONS.find?
          (fun n' => decide (lmax (sampleVal snap) 0 EMOTIONS ≤ sampleVal snap n'))).isSome := by
        rw [List.find?_isSome]
        exact ⟨n, hn, by simp [hvn]⟩
      rcases Option.isSome_iff_exists.mp hsome with ⟨n', hn'⟩
      unfold emitCue
      rw [hspec, hn']
      show (if (0.2 : ℚ) < lmax (sampleVal snap) 0 EMOTIONS then
          triggerBeepForEmotion true n' (lmax (sampleVal snap) 0 EMOTIONS) else none) ≠ none
      rw [if_pos hM2]
      simp [triggerBeepForEmotion]

/-- C3 counterexample: on the all-zero Sample, at least two labels
(`neutral` and `happy`) share the Sample's maximum intensity, yet the
dominant-emotion selection returns no label at all (`bestName` stays
null) rather than the first label `neutral` of the fixed order. -/
theorem claim_C3_counterexample :
    sampleVal zeroSample "neutral" = sampleVal zeroSample "happy" ∧
    (∀ name ∈ EMOTIONS, sampleVal zeroSample name ≤ sampleVal zeroSample "neutral") ∧
    (dominantOf zeroSample).1 = none ∧
    (dominantOf zeroSample).1 ≠ some "neutral" := by
  have hz : dominantOf zeroSample = (none, 0) := by
    simp only [dominantOf, EMOTIONS, List.foldl_cons, List.foldl_nil, bestStep,
      sampleVal_zeroSample]
    norm_num
  refine ⟨?_, ?_, ?_, ?_⟩
  · rw [sampleVal_zeroSample, sampleVal_zeroSample]
  · intro name _
    rw [sampleVal_zeroSample, sampleVal_zeroSample]
  · rw [hz]
  · rw [hz]
    simp

/-- C3 (amended): for every Sample in which two or more labels share the
maximum intensity and that maximum is positive, the dominant-emotion
selection returns the label appearing first in the fixed order
`EMOTIONS`, i.e. the first label attaining the maximum; when the shared
maximum is `0` the selection instead returns no label. -/
theorem claim_C3_amended (snap : Sample) (n1 n2 : String)
    (h1 : n1 ∈ EMOTIONS) (_h2 : n2 ∈ EMOTIONS) (_hne : n1 ≠ n2)
    (hmax : ∀ n ∈ EMOTIONS, sampleVal snap n ≤ sampleVal snap n1)
    (_htie : sampleVal snap n2 = sampleVal snap n1)
    (hpos : 0 < sampleVal snap n1) :
    (dominantOf snap).1 =
      EMOTIONS.find? (fun n => decide (sampleVal snap n1 ≤ sampleVal snap n)) := by
  have hle : sampleVal snap n1 ≤ lmax (sampleVal snap) 0 EMOTIONS :=
    le_lmax_of_mem (sampleVal snap) EMOTIONS 0 n1 h1
  have hge : lmax (sampleVal snap) 0 EMOTIONS ≤ sampleVal snap n1 := by
    rcases lmax_attained (sampleVal snap) EMOTIONS 0 with h0 | ⟨n, hn, hvn⟩
    · rw [h0]
      exact le_of_lt hpos
    · rw [hvn]
      exact hmax n hn
  have hMeq : lmax (sampleVal snap) 0 EMOTIONS = sampleVal snap n1 :=
    le_antisymm hge hle
  have hMpos : 0 < lmax (sampleVal snap) 0 EMOTIONS := by
    rw [hMeq]
    exact hpos
  calc (dominantOf snap).1
      = EMOTIONS.find?
          (fun n => decide (lmax (sampleVal snap) 0 EMOTIONS ≤ sampleVal snap n)) := by
        rw [dominantOf_spec snap hMpos]
    _ = EMOTIONS.find? (fun n => decide (sampleVal snap n1 ≤ sampleVal snap n)) := by
        rw [hMeq]

/-- Witness for the amended C3 on the concrete tie `happy = sad = 0.5`:
the selection returns the first label of the fixed order attaining the
maximum. -/
theorem claim_C3_witness :
    (dominantOf tieSample).1 =
      EMOTIONS.find?
        (fun n => decide (sampleVal tieSample "happy" ≤ sampleVal tieSample n)) := by
  have hneu : sampleVal tieSample "neutral" = 0 := by
    simp [sampleVal, tieSample, EMOTIONS, jsOrNum, objGet]
  have hhap : sampleVal tieSample "happy" = 0.5 := by
    simp [sampleVal, tieSample, EMOTIONS, jsOrNum, objGet]
    norm_num
  have hsad : sampleVal tieSample "sad" = 0.5 := by
    simp [sampleVal, tieSample, EMOTIONS, jsOrNum, objGet]
    norm_num
  have hang : sampleVal tieSample "angry" = 0 := by
    simp [sampleVal, tieSample, EMOTIONS, jsOrNum, objGet]
  have hfea : sampleVal tieSample "fearful" = 0 := by
    simp [sampleVal, tieSample, EMOTIONS, jsOrNum, objGet]
  have hdis : sampleVal tieSample "disgusted" = 0 := by
    simp [sampleVal, tieSample, EMOTIONS, jsOrNum, objGet]
  have hsur : sampleVal tieSample "surprised" = 0 := by
    simp [sampleVal, tieSample, EMOTIONS, jsOrNum, objGet]
  apply claim_C3_amended tieSample "happy" "sad"
  · simp [EMOTIONS]
  · simp [EMOTIONS]
  · simp
  · intro n hn
    simp only [EMOTIONS, List.mem_cons, List.not_mem_nil, or_false] at hn
    rcases hn with rfl | rfl | rfl | rfl | rfl | rfl | rfl <;>
      simp only [hneu, hhap, hsad, hang, hfea, hdis, hsur] <;> norm_num
  · rw [hsad, hhap]
  · rw [hhap]
    norm_num

/-- C4: every Sample the tick appends — built from any detection outcome
whose raw expression values (when detection succeeded) all lie in
`[0, 1]` — has exactly the 7 fixed labels as keys, each with a value in
`[0, 1]`; labels absent from the raw result default to `0`. -/
theorem claim_C4 (det : DetResult)
    (h : ∀ expressions name v, det = .success expressions →
      expressions name = some v → 0 ≤ v ∧ v ≤ 1) :
    (buildSnapshot det).map Prod.fst = EMOTIONS ∧
    ∀ p ∈ buildSnapshot det, 0 ≤ p.2 ∧ p.2 ≤ 1 := by
  cases det with
  | noFace =>
      refine ⟨rfl, ?_⟩
      intro p hp
      simp only [buildSnapshot, List.mem_map] at hp
      rcases hp with ⟨name, hmem, rfl⟩
      show (0 : ℚ) ≤ 0 ∧ (0 : ℚ) ≤ 1
      norm_num
  | failure =>
      refine ⟨rfl, ?_⟩
      intro p hp
      simp only [buildSnapshot, List.mem_map] at hp
      rcases hp with ⟨name, hmem, rfl⟩
      show (0 : ℚ) ≤ 0 ∧ (0 : ℚ) ≤ 1
      norm_num
  | success expressions =>
      refine ⟨rfl, ?_⟩
      intro p hp
      simp only [buildSnapshot, List.mem_map] at hp
      rcases hp with ⟨name, hmem, rfl⟩
      show 0 ≤ jsOrNum (expressions name) 0 ∧ jsOrNum (expressions name) 0 ≤ 1
      rcases hre : expressions name with _ | v
      · show (0 : ℚ) ≤ 0 ∧ (0 : ℚ) ≤ 1
        norm_num
      · show 0 ≤ (if v = 0 then (0 : ℚ) else v) ∧ (if v = 0 then (0 : ℚ) else v) ≤ 1
        split_ifs with hv
        · norm_num
        · exact h expressions name v rfl hre

/-- Witness for C4 with a raw detection result that reports only
`happy = 0.9` and leaves every other label undefined. -/
theorem claim_C4_witness :
    (buildSnapshot (.success
        (fun name => if name = "happy" then some 0.9 else none))).map Prod.fst
      = EMOTIONS ∧
    ∀ p ∈ buildSnapshot (.success
        (fun name => if name = "happy" then some 0.9 else none)),
      0 ≤ p.2 ∧ p.2 ≤ 1 := by
  apply claim_C4
  intro expressions name v hdet hv
  injection hdet with he
  subst he
  dsimp only at hv
  by_cases hn : name = "happy"
  · rw [if_pos hn] at hv
    cases hv
    norm_num
  · rw [if_neg hn] at hv
    cases hv

/-- C8: the cell-color function is a pure function of `(label, intensity)`
whose brightness component is monotonically non-decreasing in the
intensity for every label; for `neutral` it is the linear interpolation
between 30 and 80 with zero saturation, and for every other label the
linear interpolation between 10 and 100. -/
theorem claim_C8 (name : String) (v w : ℚ) (hvw : v ≤ w) :
    (getEmotionColor name v).bri ≤ (getEmotionColor name w).bri ∧
    (getEmotionColor "neutral" v).sat = 0 ∧
    (getEmotionColor "neutral" v).bri = lerp 30 80 v ∧
    (name ≠ "neutral" → (getEmotionColor name v).bri = lerp 10 100 v) := by
  refine ⟨?_, ?_, ?_, ?_⟩
  · unfold getEmotionColor
    split_ifs <;>
      first
        | exact lerp_mono 30 80 v w (by norm_num) hvw
        | exact lerp_mono 10 100 v w (by norm_num) hvw
  · simp [getEmotionColor]
  · simp [getEmotionColor]
  · intro h
    unfold getEmotionColor
    rw [if_neg h]
    split_ifs <;> rfl

/-- Witness for C8 at the label `happy` with intensities `0 ≤ 1`. -/
theorem claim_C8_witness :
    (getEmotionColor "happy" 0).bri ≤ (getEmotionColor "happy" 1).bri ∧
    (getEmotionColor "neutral" 0).sat = 0 ∧
    (getEmotionColor "neutral" 0).bri = lerp 30 80 0 ∧
    ("happy" ≠ "neutral" → (getEmotionColor "happy" 0).bri = lerp 10 100 0) :=
  claim_C8 "happy" 0 1 (by norm_num)

/-- C10: both per-label lookups are total over arbitrary label strings —
for any label outside the fixed 7, the beep falls back to base frequency
`440` Hz and the color falls back to grey (zero saturation) with
brightness interpolated linearly between 10 and 100. -/
theorem claim_C10 (name : String) (v : ℚ) (h : name ∉ EMOTIONS) :
    baseFreqOf name = 440 ∧
    triggerBeepForEmotion true name v =
      some ⟨name, 440 * (0.8 + v * 0.4), 0.05 + v * 0.25⟩ ∧
    getEmotionColor name v = ⟨0, 0, lerp 10 100 v⟩ := by
  simp only [EMOTIONS, List.mem_cons, List.not_mem_nil, or_false, not_or] at h
  obtain ⟨e1, e2, e3, e4, e5, e6, e7⟩ := h
  have hbase : baseFreqOf name = 440 := by
    simp [baseFreqOf, EMOTION_FREQS, objGet, jsOrNum,
      Ne.symm e1, Ne.symm e2, Ne.symm e3, Ne.symm e4, Ne.symm e5, Ne.symm e6, Ne.symm e7]
  refine ⟨hbase, ?_, ?_⟩
  · simp [triggerBeepForEmotion, hbase]
  · simp [getEmotionColor, e1, e2, e3, e4, e5, e6, e7]

/-- Witness for C10 at the unknown label `bored` with intensity `0.5`. -/
theorem claim_C10_witness :
    baseFreqOf "bored" = 440 ∧
    triggerBeepForEmotion true "bored" 0.5 =
      some ⟨"bored", 440 * (0.8 + 0.5 * 0.4), 0.05 + 0.5 * 0.25⟩ ∧
    getEmotionColor "bored" 0.5 = ⟨0, 0, lerp 10 100 0.5⟩ :=
  claim_C10 "bored" 0.5 (by simp [EMOTIONS])

end EmotionMap
